import Mathlib

/-!
Verification of the hawser agent (Finsys/hawser), standard-mode proxy core,
stream relay, auth gate and tunnel message protocol, shallowly embedded from
the Go sources (`internal/server/server.go`, `internal/protocol/protocol.go`,
`cmd/hawser/main.go`).

Go strings are modelled as `List Char`; Go byte slices as `List Nat`;
Go maps as association lists (iteration order = list order, keys unique in
`http.Header`); fallible operations return `Option`/`Except`.
-/

namespace Hawser

/-- Model of Go `strings.HasPrefix`-style check on `List Char`:
`strHasPre s p = true` iff `p` is an initial segment of `s`. -/
def strHasPre : List Char → List Char → Bool
  | _, [] => true
  | [], _ :: _ => false
  | c :: s, d :: p => decide (c = d) && strHasPre s p

/-- Model of Go `strings.Contains s sub`: `sub` occurs as a contiguous
substring of `s`. -/
def strContainsB : List Char → List Char → Bool
  | [], sub => decide (sub = [])
  | c :: s, sub => strHasPre (c :: s) sub || strContainsB s sub

/-- Model of Go `strings.HasSuffix s suf`. -/
def strHasSuf (s suf : List Char) : Bool :=
  strHasPre s.reverse suf.reverse

/-- Model of Go `strings.EqualFold` restricted to the ASCII header names the
code compares (simple case folding = `Char.toLower` on each character). -/
def strEqFold (a b : List Char) : Bool :=
  decide (a.map Char.toLower = b.map Char.toLower)

/-- Embeds `isStreamingRequest` from `internal/server/server.go`: the chain of
`if` tests classifying a `(path, method)` pair as a streaming Docker call. -/
def isStreamingRequest (path method : List Char) : Bool :=
  if strContainsB path "/logs".toList && decide (method = "GET".toList) then true
  else if strContainsB path "/attach".toList then true
  else if strContainsB path "/exec/".toList && strContainsB path "/start".toList then true
  else if strHasSuf path "/events".toList then true
  else if strContainsB path "/build".toList && decide (method = "POST".toList) then true
  else if (strContainsB path "/images/create".toList || strContainsB path "/images/push".toList)
      && decide (method = "POST".toList) then true
  else false

/-- The streaming table of spec §4.2, written from the spec's words as a
disjunction, to be compared with the code's `isStreamingRequest`. -/
def streamingTable (path method : List Char) : Prop :=
  (strContainsB path "/logs".toList = true ∧ method = "GET".toList)
  ∨ strContainsB path "/attach".toList = true
  ∨ (strContainsB path "/exec/".toList = true ∧ strContainsB path "/start".toList = true)
  ∨ strHasSuf path "/events".toList = true
  ∨ (strContainsB path "/build".toList = true ∧ method = "POST".toList)
  ∨ ((strContainsB path "/images/create".toList = true ∨ strContainsB path "/images/push".toList = true)
      ∧ method = "POST".toList)

theorem if_bool_or (a b : Bool) : (if a = true then true else b) = (a || b) := by
  cases a <;> simp

/-- The hop-by-hop header name table of `isHopByHopHeader` in
`internal/server/server.go`. -/
def hopByHopHeaders : List (List Char) :=
  ["Connection".toList, "Keep-Alive".toList, "Proxy-Authenticate".toList,
   "Proxy-Authorization".toList, "Te".toList, "Trailers".toList,
   "Transfer-Encoding".toList, "Upgrade".toList]

/-- Embeds `isHopByHopHeader`: loops over the table comparing with
`strings.EqualFold`. -/
def isHopByHopHeader (header : List Char) : Bool :=
  hopByHopHeaders.any (fun h => strEqFold header h)

/-- Embeds the request-header loop of `handleProxy` (server.go lines 107-113):
for each `(key, values)` entry of the inbound header map, if `values` is
nonempty and the key is not hop-by-hop, the daemon header map gets
`key ↦ values[0]`.  The Go maps are modelled as association lists; `http.Header`
keys are unique. -/
def buildDaemonHeaders (hs : List (List Char × List (List Char))) :
    List (List Char × List Char) :=
  hs.filterMap (fun kv =>
    match kv.2 with
    | [] => none
    | v :: _ => if isHopByHopHeader kv.1 then none else some (kv.1, v))

/-- Embeds the response-header loop of `handleProxy` (server.go lines 124-129):
every value of every daemon response header is added to the client reply,
with no filtering. -/
def copyRespHeaders (hs : List (List Char × List (List Char))) :
    List (List Char × List Char) :=
  hs.foldr (fun kv acc => kv.2.map (fun v => (kv.1, v)) ++ acc) []

theorem nodup_keys_congr {α β : Type} : ∀ (l : List (α × β)),
    (l.map Prod.fst).Nodup → ∀ a b₁ b₂, (a, b₁) ∈ l → (a, b₂) ∈ l → b₁ = b₂ := by
  intro l
  induction l with
  | nil => intro _ a b₁ b₂ h₁ _; cases h₁
  | cons x t ih =>
    intro hnd a b₁ b₂ h₁ h₂
    rw [List.map_cons, List.nodup_cons] at hnd
    rcases List.mem_cons.mp h₁ with h₁ | h₁ <;> rcases List.mem_cons.mp h₂ with h₂ | h₂
    · injection h₁.trans h₂.symm with ha hb
    · exfalso; apply hnd.1
      exact List.mem_map.mpr ⟨(a, b₂), h₂, by rw [← h₁]⟩
    · exfalso; apply hnd.1
      exact List.mem_map.mpr ⟨(a, b₁), h₁, by rw [← h₂]⟩
    · exact ih hnd.2 a b₁ b₂ h₁ h₂

theorem mem_buildDaemonHeaders_of (hs : List (List Char × List (List Char)))
    (k v : List Char) (rest : List (List Char)) (hin : (k, v :: rest) ∈ hs)
    (hhop : isHopByHopHeader k = false) : (k, v) ∈ buildDaemonHeaders hs := by
  rw [buildDaemonHeaders, List.mem_filterMap]
  exact ⟨(k, v :: rest), hin, by simp [hhop]⟩

theorem buildDaemonHeaders_not_hop (hs : List (List Char × List (List Char)))
    (k v : List Char) (hmem : (k, v) ∈ buildDaemonHeaders hs) :
    isHopByHopHeader k = false := by
  rw [buildDaemonHeaders, List.mem_filterMap] at hmem
  obtain ⟨⟨k', vs⟩, _, hf⟩ := hmem
  dsimp at hf
  cases vs with
  | nil => simp at hf
  | cons v0 rest =>
    by_cases hhop : isHopByHopHeader k' = true
    · simp [hhop] at hf
    · rw [Bool.not_eq_true] at hhop
      simp only [hhop, Bool.false_eq_true, if_false, Option.some.injEq,
        Prod.mk.injEq] at hf
      obtain ⟨hk, _⟩ := hf
      rw [← hk]
      exact hhop

/-- C2: no hop-by-hop header (compared case-insensitively against the eight
names) ever reaches the daemon header map, and every non-hop-by-hop header
with at least one value is forwarded (with its first value). -/
theorem C2_hop_by_hop_stripped :
    ∀ hs : List (List Char × List (List Char)),
      (∀ k v, (k, v) ∈ buildDaemonHeaders hs → ∀ h ∈ hopByHopHeaders, strEqFold k h = false)
      ∧ (∀ k v rest, (k, v :: rest) ∈ hs → isHopByHopHeader k = false →
          (k, v) ∈ buildDaemonHeaders hs) := by
  intro hs
  constructor
  · intro k v hmem h hh
    have hhop := buildDaemonHeaders_not_hop hs k v hmem
    rw [isHopByHopHeader, List.any_eq_false] at hhop
    simpa using hhop h hh
  · exact fun k v rest hin hhop => mem_buildDaemonHeaders_of hs k v rest hin hhop

/-- Witness for C2 at a concrete header set: `Connection` is dropped and
`Accept` is forwarded with its first value. -/
theorem C2_witness :
    strEqFold "Accept".toList "Connection".toList = false
    ∧ ("Accept".toList, "1".toList) ∈ buildDaemonHeaders
        [("Connection".toList, ["close".toList]), ("Accept".toList, ["1".toList, "2".toList])] := by
  refine ⟨?_, ?_⟩
  · exact (C2_hop_by_hop_stripped
      [("Connection".toList, ["close".toList]), ("Accept".toList, ["1".toList, "2".toList])]).1
      "Accept".toList "1".toList (by decide) "Connection".toList (by decide)
  · exact (C2_hop_by_hop_stripped
      [("Connection".toList, ["close".toList]), ("Accept".toList, ["1".toList, "2".toList])]).2
      "Accept".toList "1".toList ["2".toList] (by decide) (by decide)

/-- C9: under the unique-key discipline of Go header maps, only the first value
of each request header is forwarded (any value the daemon map holds for that
key is the first one), while in the response direction every value of every
header, hop-by-hop included, is copied back to the client. -/
theorem C9_first_value_and_full_response_copy :
    (∀ hs : List (List Char × List (List Char)), (hs.map Prod.fst).Nodup →
      ∀ k v rest, (k, v :: rest) ∈ hs → isHopByHopHeader k = false →
        (k, v) ∈ buildDaemonHeaders hs
        ∧ ∀ w, (k, w) ∈ buildDaemonHeaders hs → w = v)
    ∧ (∀ hs : List (List Char × List (List Char)),
        ∀ k vs, (k, vs) ∈ hs → ∀ v ∈ vs, (k, v) ∈ copyRespHeaders hs) := by
  constructor
  · intro hs hnd k v rest hin hhop
    refine ⟨mem_buildDaemonHeaders_of hs k v rest hin hhop, ?_⟩
    intro w hw
    rw [buildDaemonHeaders, List.mem_filterMap] at hw
    obtain ⟨⟨k', vs'⟩, hin', hf⟩ := hw
    dsimp at hf
    cases vs' with
    | nil => simp at hf
    | cons v0 rest' =>
      by_cases hhop' : isHopByHopHeader k' = true
      · simp [hhop'] at hf
      · rw [Bool.not_eq_true] at hhop'
        simp only [hhop', Bool.false_eq_true, if_false, Option.some.injEq,
          Prod.mk.injEq] at hf
        obtain ⟨hk, hv⟩ := hf
        have hc := nodup_keys_congr hs hnd k (v :: rest) (v0 :: rest') hin (hk ▸ hin')
        injection hc with hvh htl
        rw [← hv]
        exact hvh.symm
  · intro hs
    induction hs with
    | nil => intro k vs h; cases h
    | cons x t ih =>
      intro k vs hin v hv
      rw [copyRespHeaders] at *
      simp only [List.foldr_cons]
      rcases List.mem_cons.mp hin with h | h
      · subst h
        exact List.mem_append_left _ (List.mem_map_of_mem _ hv)
      · exact List.mem_append_right _ (ih k vs h v hv)

/-- Witness for C9: first value of a duplicate-free map is the only forwarded
one, and both values of the hop-by-hop `Connection` response header are copied
back. -/
theorem C9_witness :
    ("Accept".toList, "1".toList) ∈ buildDaemonHeaders [("Accept".toList, ["1".toList, "2".toList])]
    ∧ ("Connection".toList, "b".toList) ∈ copyRespHeaders
        [("Connection".toList, ["a".toList, "b".toList])] := by
  constructor
  · exact ((C9_first_value_and_full_response_copy.1
      [("Accept".toList, ["1".toList, "2".toList])] (by decide)
      "Accept".toList "1".toList ["2".toList] (by decide) (by decide))).1
  · exact C9_first_value_and_full_response_copy.2
      [("Connection".toList, ["a".toList, "b".toList])]
      "Connection".toList ["a".toList, "b".toList] (by decide) "b".toList (by decide)

/-- C1: streaming classification is a pure function of `(path, method)` that
matches the §4.2 table exactly, and the five concrete examples of the spec
classify as stated. -/
theorem C1_streaming_classification :
    (∀ p m, isStreamingRequest p m = true ↔ streamingTable p m)
    ∧ isStreamingRequest "/containers/abc/logs".toList "GET".toList = true
    ∧ isStreamingRequest "/events".toList "GET".toList = true
    ∧ isStreamingRequest "/images/create".toList "POST".toList = true
    ∧ isStreamingRequest "/containers/abc/logs".toList "POST".toList = false
    ∧ isStreamingRequest "/containers/json".toList "GET".toList = false := by
  refine ⟨fun p m => ?_, by decide, by decide, by decide, by decide, by decide⟩
  simp only [isStreamingRequest, if_bool_or, Bool.or_false]
  simp [streamingTable, Bool.and_eq_true, Bool.or_eq_true, decide_eq_true_eq]

/-- The relevant parts of an inbound HTTP request for the auth gate:
`headerToken` models `r.Header.Get("X-Hawser-Token")` (empty when absent) and
`queryToken` models `r.URL.Query().Get("token")`. -/
structure AuthRequest where
  path : List Char
  headerToken : List Char
  queryToken : List Char

/-- Outcome of a middleware: hand the request to the inner handler, or reply
immediately with a status code and body (as `http.Error` does, body ends in a
newline) without proxying. -/
inductive Handled where
  | proceed : Handled
  | reject : Nat → List Char → Handled
deriving DecidableEq

def healthPath : List Char := "/_hawser/health".toList

/-- The `token` local of `authMiddleware`: the header value, falling back to
the query parameter when the header is empty. -/
def effectiveToken (r : AuthRequest) : List Char :=
  if r.headerToken ≠ [] then r.headerToken else r.queryToken

/-- Embeds `authMiddleware` from `internal/server/server.go`: the health path
skips auth; otherwise, when a token is configured, a mismatching effective
token is rejected with `http.Error(w, "Unauthorized", 401)`. -/
def authMiddleware (cfgToken : List Char) (r : AuthRequest) : Handled :=
  if r.path = healthPath then .proceed
  else if cfgToken ≠ [] then
    if effectiveToken r ≠ cfgToken then .reject 401 "Unauthorized\n".toList
    else .proceed
  else .proceed

theorem authMiddleware_health (cfgToken : List Char) (r : AuthRequest)
    (hp : r.path = healthPath) : authMiddleware cfgToken r = .proceed := by
  rw [authMiddleware, if_pos hp]

/-- C3: with a token configured, any request to a non-health path whose header
token mismatches and whose query token (the fallback) also mismatches is
rejected with 401 and never proxied, while the health path always passes the
auth gate. -/
theorem C3_auth_gate :
    (∀ cfgToken r, cfgToken ≠ [] → r.path ≠ healthPath →
      r.headerToken ≠ cfgToken → r.queryToken ≠ cfgToken →
      authMiddleware cfgToken r = .reject 401 "Unauthorized\n".toList)
    ∧ (∀ cfgToken r, r.path = healthPath → authMiddleware cfgToken r = .proceed) := by
  constructor
  · intro cfg r hcfg hp hh hq
    have ht : effectiveToken r ≠ cfg := by
      rw [effectiveToken]
      by_cases hhe : r.headerToken = []
      · rw [if_neg (fun hne => hne hhe)]
        exact hq
      · rw [if_pos hhe]
        exact hh
    rw [authMiddleware, if_neg hp, if_pos hcfg, if_pos ht]
  · exact fun cfg r hp => authMiddleware_health cfg r hp

/-- Witness for C3: a mismatching token on a non-health path is rejected, the
health path passes with no token at all. -/
theorem C3_witness :
    authMiddleware "secret".toList
        ⟨"/containers/json".toList, "bad".toList, "nope".toList⟩
      = .reject 401 "Unauthorized\n".toList
    ∧ authMiddleware "secret".toList ⟨healthPath, [], []⟩ = .proceed := by
  refine ⟨?_, ?_⟩
  · exact C3_auth_gate.1 "secret".toList
      ⟨"/containers/json".toList, "bad".toList, "nope".toList⟩
      (by decide) (by decide) (by decide) (by decide)
  · exact C3_auth_gate.2 "secret".toList ⟨healthPath, [], []⟩ rfl

/-- An HTTP reply as assembled by the handlers: status code, optional
Content-Type header, body bytes. -/
structure HttpReply where
  status : Nat
  contentType : Option (List Char)
  body : List Char
deriving DecidableEq

/-- Embeds `handleHealth` from `internal/server/server.go`, as a function of
the daemon `Ping` outcome (`none` = success, `some e` = error text `e`): on
error it replies `http.Error(w, "Docker unhealthy: "+err, 503)`, else it
writes the healthy JSON with an implicit 200. -/
def handleHealth (pingErr : Option (List Char)) : HttpReply :=
  match pingErr with
  | some e =>
    { status := 503, contentType := some "text/plain; charset=utf-8".toList,
      body := "Docker unhealthy: ".toList ++ e ++ "\n".toList }
  | none =>
    { status := 200, contentType := some "application/json".toList,
      body := "\x7b\"status\":\"healthy\"\x7d".toList }

theorem strHasPre_append_self : ∀ (e b : List Char), strHasPre (e ++ b) e = true := by
  intro e
  induction e with
  | nil =>
    intro b
    show strHasPre b [] = true
    cases b <;> rfl
  | cons c e ih => intro b; simp [strHasPre, ih]

theorem strContainsB_of_hasPre : ∀ (s sub : List Char),
    strHasPre s sub = true → strContainsB s sub = true := by
  intro s sub h
  cases s with
  | nil =>
    cases sub with
    | nil => rfl
    | cons d p => exact absurd h (by simp [strHasPre])
  | cons c s => simp [strContainsB, h]

theorem strContainsB_append_left : ∀ (a s sub : List Char),
    strContainsB s sub = true → strContainsB (a ++ s) sub = true := by
  intro a
  induction a with
  | nil => intro s sub h; simpa using h
  | cons c a ih =>
    intro s sub h
    show (strHasPre (c :: (a ++ s)) sub || strContainsB (a ++ s) sub) = true
    rw [ih s sub h, Bool.or_true]

/-- C7: the health endpoint replies 200 with exactly the healthy JSON when
`Ping` succeeds, 503 with a body containing the daemon error text when it
fails, and is never subject to the token check. -/
theorem C7_health_endpoint :
    handleHealth none = HttpReply.mk 200 (some "application/json".toList)
        "\x7b\"status\":\"healthy\"\x7d".toList
    ∧ (∀ e, (handleHealth (some e)).status = 503
        ∧ strContainsB (handleHealth (some e)).body e = true)
    ∧ (∀ cfgToken hdr q, authMiddleware cfgToken ⟨healthPath, hdr, q⟩ = .proceed) := by
  refine ⟨rfl, fun e => ⟨rfl, ?_⟩, fun cfgToken hdr q => authMiddleware_health _ _ rfl⟩
  have h2 := strContainsB_of_hasPre _ _ (strHasPre_append_self e "\n".toList)
  have h3 := strContainsB_append_left "Docker unhealthy: ".toList _ _ h2
  show strContainsB ("Docker unhealthy: ".toList ++ e ++ "\n".toList) e = true
  rw [List.append_assoc]
  exact h3

/-- Result of one Go `io.Reader.Read` call: an error is either `io.EOF`
(clean end of input) or some other error text. -/
inductive RErr where
  | eof : RErr
  | other : List Char → RErr
deriving DecidableEq

/-- One `body.Read(buf)` result: the bytes delivered (length `n`) and the
error returned alongside them, if any (Go allows `n > 0` together with a
non-nil error in the same call). -/
structure ReadStep where
  data : List Nat
  err : Option RErr
deriving DecidableEq

/-- Observable output actions of the relay on the destination writer:
per-chunk `w.Write`, `flusher.Flush`, the single `io.Copy` of the
non-flushing path, and a `log.Printf` of a stream error. -/
inductive WEvent where
  | write : List Nat → WEvent
  | flush : WEvent
  | copyAll : List Nat → WEvent
  | logErr : List Char → WEvent
deriving DecidableEq

/-- The `make([]byte, 4096)` buffer size of `streamResponse`. -/
def bufSize : Nat := 4096

/-- Embeds the read/write/flush loop of `streamResponse` (server.go lines
152-165) over a trace of successive `Read` results: if `n > 0` write the
chunk and flush; then, if an error was returned, log it unless it is `io.EOF`
and stop; otherwise continue with the next read. -/
def relayLoop : List ReadStep → List WEvent
  | [] => []
  | s :: rest =>
    (if s.data.length > 0 then [WEvent.write s.data, WEvent.flush] else [])
      ++ (match s.err with
          | none => relayLoop rest
          | some RErr.eof => []
          | some (RErr.other m) => [WEvent.logErr m])

/-- The chunks a sequential reader delivers up to and including its first
erroring `Read` (what `io.Copy` or the relay loop consumes). -/
def chunksRead : List ReadStep → List (List Nat)
  | [] => []
  | s :: rest =>
    (if s.data.length > 0 then [s.data] else [])
      ++ (match s.err with
          | none => chunksRead rest
          | some _ => [])

def joinAll (l : List (List Nat)) : List Nat := l.foldr (· ++ ·) []

/-- Embeds `streamResponse` (server.go lines 145-166): when the destination
writer supports `http.Flusher` run the chunked relay loop, otherwise fall
back to a single `io.Copy` of the whole body with no flushes. -/
def streamResponse (canFlush : Bool) (tr : List ReadStep) : List WEvent :=
  if canFlush then relayLoop tr
  else [WEvent.copyAll (joinAll (chunksRead tr))]

def writesOf : List WEvent → List (List Nat)
  | [] => []
  | WEvent.write c :: rest => c :: writesOf rest
  | _ :: rest => writesOf rest

def loggedOf : List WEvent → List (List Char)
  | [] => []
  | WEvent.logErr m :: rest => m :: loggedOf rest
  | _ :: rest => loggedOf rest

/-- Every `write` event is immediately followed by a `flush` event. -/
def wellFlushed : List WEvent → Bool
  | [] => true
  | WEvent.write _ :: WEvent.flush :: rest => wellFlushed rest
  | WEvent.write _ :: _ => false
  | _ :: rest => wellFlushed rest

/-- The first error a sequential reader returns along the trace, if any. -/
def firstErr : List ReadStep → Option RErr
  | [] => none
  | s :: rest =>
    match s.err with
    | none => firstErr rest
    | some e => some e

theorem relay_write_bound : ∀ (tr : List ReadStep),
    (∀ s ∈ tr, s.data.length ≤ bufSize) →
    ∀ c, WEvent.write c ∈ relayLoop tr → c.length ≤ bufSize := by
  intro tr
  induction tr with
  | nil => intro _ c hc; simp [relayLoop] at hc
  | cons s rest ih =>
    intro hb c hc
    obtain ⟨d, e⟩ := s
    have hhd : d.length ≤ bufSize := hb ⟨d, e⟩ (List.mem_cons_self _ _)
    have hrest : ∀ x ∈ rest, x.data.length ≤ bufSize :=
      fun x hx => hb x (List.mem_cons_of_mem _ hx)
    rw [relayLoop, List.mem_append] at hc
    rcases hc with hc | hc
    · by_cases hd : d.length > 0
      · simp only [if_pos hd, List.mem_cons, List.not_mem_nil, or_false] at hc
        rcases hc with hc | hc
        · injection hc with h; rw [h]; exact hhd
        · simp at hc
      · simp only [if_neg hd] at hc; simp at hc
    · cases e with
      | none => exact ih hrest c hc
      | some e =>
        cases e with
        | eof => simp at hc
        | other m => simp at hc

theorem relay_wellFlushed : ∀ (tr : List ReadStep),
    wellFlushed (relayLoop tr) = true := by
  intro tr
  induction tr with
  | nil => rfl
  | cons s rest ih =>
    obtain ⟨d, e⟩ := s
    rw [relayLoop]
    by_cases hd : d.length > 0
    · rw [if_pos hd]
      cases e with
      | none => exact ih
      | some e => cases e <;> rfl
    · rw [if_neg hd]
      cases e with
      | none => exact ih
      | some e => cases e <;> rfl

theorem relay_writes : ∀ (tr : List ReadStep),
    writesOf (relayLoop tr) = chunksRead tr := by
  intro tr
  induction tr with
  | nil => rfl
  | cons s rest ih =>
    obtain ⟨d, e⟩ := s
    rw [relayLoop, chunksRead]
    by_cases hd : d.length > 0
    · simp only [if_pos hd]
      cases e with
      | none =>
        show d :: writesOf (relayLoop rest) = d :: chunksRead rest
        rw [ih]
      | some e => cases e <;> rfl
    · simp only [if_neg hd]
      cases e with
      | none => exact ih
      | some e => cases e <;> rfl

theorem relay_logged : ∀ (tr : List ReadStep),
    loggedOf (relayLoop tr) =
      (match firstErr tr with
       | some (RErr.other m) => [m]
       | _ => []) := by
  intro tr
  induction tr with
  | nil => rfl
  | cons s rest ih =>
    obtain ⟨d, e⟩ := s
    rw [relayLoop, firstErr]
    by_cases hd : d.length > 0
    · rw [if_pos hd]
      cases e with
      | none => exact ih
      | some e => cases e <;> rfl
    · rw [if_neg hd]
      cases e with
      | none => exact ih
      | some e => cases e <;> rfl

theorem relay_stops_at_error : ∀ (pre : List ReadStep) (s : ReadStep)
    (post : List ReadStep), (∀ x ∈ pre, x.err = none) → s.err ≠ none →
    relayLoop (pre ++ s :: post) = relayLoop (pre ++ [s]) := by
  intro pre
  induction pre with
  | nil =>
    intro s post _ hs
    obtain ⟨d, e⟩ := s
    cases e with
    | none => exact absurd rfl hs
    | some e => cases e <;> rfl
  | cons x pre ih =>
    intro s post hpre hs
    obtain ⟨xd, xe⟩ := x
    have hxe : xe = none := hpre ⟨xd, xe⟩ (List.mem_cons_self _ _)
    subst hxe
    rw [List.cons_append, List.cons_append, relayLoop, relayLoop]
    rw [ih s post (fun y hy => hpre y (List.mem_cons_of_mem _ hy)) hs]

/-- C5: with a flushing destination, the relay writes chunks of at most 4096
bytes, flushes immediately after every write, delivers exactly the chunks the
reader produced up to its first error (already-flushed output retained, never
rolled back), logs precisely a first non-EOF error, and stops at the first
error without consuming later reads. -/
theorem C5_streaming_relay :
    ∀ tr : List ReadStep, (∀ s ∈ tr, s.data.length ≤ bufSize) →
      (∀ c, WEvent.write c ∈ streamResponse true tr → c.length ≤ bufSize)
      ∧ wellFlushed (streamResponse true tr) = true
      ∧ writesOf (streamResponse true tr) = chunksRead tr
      ∧ loggedOf (streamResponse true tr) =
          (match firstErr tr with
           | some (RErr.other m) => [m]
           | _ => [])
      ∧ (∀ pre s post, tr = pre ++ s :: post → (∀ x ∈ pre, x.err = none) →
          s.err ≠ none →
          streamResponse true tr = streamResponse true (pre ++ [s])) := by
  intro tr hb
  have hstream : streamResponse true tr = relayLoop tr := rfl
  refine ⟨?_, ?_, ?_, ?_, ?_⟩
  · rw [hstream]; exact relay_write_bound tr hb
  · rw [hstream]; exact relay_wellFlushed tr
  · rw [hstream]; exact relay_writes tr
  · rw [hstream]; exact relay_logged tr
  · intro pre s post htr hpre hs
    show relayLoop tr = relayLoop (pre ++ [s])
    rw [htr]
    exact relay_stops_at_error pre s post hpre hs

/-- Witness for C5 at a concrete trace: one clean chunk, then a chunk
delivered together with a non-EOF error. -/
theorem C5_witness :
    wellFlushed (streamResponse true
      [ReadStep.mk [1, 2, 3] none, ReadStep.mk [4] (some (RErr.other "boom".toList)),
       ReadStep.mk [9] none]) = true
    ∧ writesOf (streamResponse true
      [ReadStep.mk [1, 2, 3] none, ReadStep.mk [4] (some (RErr.other "boom".toList)),
       ReadStep.mk [9] none]) = [[1, 2, 3], [4]]
    ∧ loggedOf (streamResponse true
      [ReadStep.mk [1, 2, 3] none, ReadStep.mk [4] (some (RErr.other "boom".toList)),
       ReadStep.mk [9] none]) = ["boom".toList] := by
  have h := C5_streaming_relay
    [ReadStep.mk [1, 2, 3] none, ReadStep.mk [4] (some (RErr.other "boom".toList)),
     ReadStep.mk [9] none] (by decide)
  refine ⟨h.2.1, ?_, ?_⟩
  · rw [h.2.2.1]; decide
  · rw [h.2.2.2.1]; rfl

/-- Non-flush and non-per-chunk-write check on an event list, as a Boolean. -/
def noChunkFlushing (evs : List WEvent) : Bool :=
  evs.all (fun e =>
    match e with
    | WEvent.write _ => false
    | WEvent.flush => false
    | _ => true)

/-- C10: when the destination writer does not support flushing, a streaming
request is served by a single full-body copy; no per-chunk write and no flush
is ever issued on that path. -/
theorem C10_no_flusher_fallback :
    ∀ tr : List ReadStep,
      streamResponse false tr = [WEvent.copyAll (joinAll (chunksRead tr))]
      ∧ noChunkFlushing (streamResponse false tr) = true := by
  intro tr
  exact ⟨rfl, rfl⟩

/-- The daemon's reply to `RequestRaw`, as consumed by `handleProxy`: status
code, response header map, and the response body as a trace of `Read`
results. -/
structure DockerResp where
  statusCode : Nat
  headers : List (List Char × List (List Char))
  bodyTrace : List ReadStep
deriving DecidableEq

/-- The parts of the inbound request `handleProxy` consults. -/
structure ProxyRequest where
  method : List Char
  path : List Char
  headers : List (List Char × List (List Char))

/-- Everything observable about one `handleProxy` invocation: the headers sent
to the daemon, the client status and headers, the body events, the error body
written via `http.Error` (if any), and whether the daemon response body was
acquired and released. -/
structure ProxyResult where
  sentHeaders : List (List Char × List Char)
  status : Nat
  headerAdds : List (List Char × List Char)
  events : List WEvent
  errorBody : Option (List Char)
  bodyAcquired : Bool
  bodyClosed : Bool
deriving DecidableEq

/-- Embeds `handleProxy` (server.go lines 104-142) as a function of the
daemon call's outcome: on `RequestRaw` error it replies
`http.Error(w, "Docker request failed: "+err, 502)` and returns (no response
body exists on this path, `resp` is nil); on success `defer resp.Body.Close()`
guarantees release, response headers are all copied, the status code is
forwarded, and the body is streamed or copied according to
`isStreamingRequest`. -/
def handleProxy (r : ProxyRequest) (dres : Except (List Char) DockerResp)
    (canFlush : Bool) : ProxyResult :=
  match dres with
  | Except.error e =>
    { sentHeaders := buildDaemonHeaders r.headers,
      status := 502, headerAdds := [], events := [],
      errorBody := some ("Docker request failed: ".toList ++ e ++ "\n".toList),
      bodyAcquired := false, bodyClosed := false }
  | Except.ok resp =>
    { sentHeaders := buildDaemonHeaders r.headers,
      status := resp.statusCode,
      headerAdds := copyRespHeaders resp.headers,
      events :=
        (if isStreamingRequest r.path r.method then streamResponse canFlush resp.bodyTrace
         else [WEvent.copyAll (joinAll (chunksRead resp.bodyTrace))]),
      errorBody := none,
      bodyAcquired := true, bodyClosed := true }

/-- C4: when the daemon call fails, `handleProxy` replies 502 Bad Gateway with
a body carrying the underlying error message and returns normally (the model
is a total function, no abort); whenever a daemon response body is acquired it
is released on every exit path (streaming, plain copy, mid-stream error). -/
theorem C4_daemon_error_bad_gateway :
    ∀ (r : ProxyRequest) (canFlush : Bool),
      (∀ e, (handleProxy r (Except.error e) canFlush).status = 502
        ∧ (handleProxy r (Except.error e) canFlush).errorBody =
            some ("Docker request failed: ".toList ++ e ++ "\n".toList)
        ∧ (handleProxy r (Except.error e) canFlush).bodyAcquired = false)
      ∧ (∀ dres, (handleProxy r dres canFlush).bodyAcquired = true →
          (handleProxy r dres canFlush).bodyClosed = true) := by
  intro r canFlush
  refine ⟨fun e => ⟨rfl, rfl, rfl⟩, fun dres h => ?_⟩
  cases dres with
  | error e => exact absurd h (by simp [handleProxy])
  | ok resp => rfl

/-- Witness for C4: a concrete failed daemon call yields 502 with the message,
and a concrete successful one has its body released. -/
theorem C4_witness :
    (handleProxy ⟨"GET".toList, "/containers/json".toList, []⟩
      (Except.error "dial unix: no such file".toList) true).status = 502
    ∧ (handleProxy ⟨"GET".toList, "/containers/json".toList, []⟩
        (Except.ok ⟨200, [], [ReadStep.mk [1] (some RErr.eof)]⟩) true).bodyClosed = true := by
  refine ⟨?_, ?_⟩
  · exact ((C4_daemon_error_bad_gateway ⟨"GET".toList, "/containers/json".toList, []⟩ true).1
      "dial unix: no such file".toList).1
  · exact (C4_daemon_error_bad_gateway ⟨"GET".toList, "/containers/json".toList, []⟩ true).2
      (Except.ok ⟨200, [], [ReadStep.mk [1] (some RErr.eof)]⟩) rfl

/-- The `err` the serve goroutine delivers on `errChan`:
`http.ErrServerClosed` or any other error. -/
inductive ServeErr where
  | closed : ServeErr
  | other : List Char → ServeErr
deriving DecidableEq

/-- The two events `Run`'s final `select` can wake on. -/
inductive RunTrigger where
  | stopSignal : RunTrigger
  | serveError : ServeErr → RunTrigger
deriving DecidableEq

/-- The `10*time.Second` deadline `Run` gives `context.WithTimeout` for the
shutdown context (server.go line 92). -/
def shutdownGraceSeconds : Nat := 10

/-- What `Run` does after its `select`: call `httpServer.Shutdown` under a
grace deadline, return the serve error, or return nil for
`http.ErrServerClosed`. -/
inductive RunOutcome where
  | gracefulShutdown : Nat → RunOutcome
  | failWith : List Char → RunOutcome
  | cleanExit : RunOutcome
deriving DecidableEq

/-- Embeds the `select` at the end of `Run` (server.go lines 89-100): a stop
signal triggers `Shutdown` with the 10-second context; a serve error is
returned unless it is `http.ErrServerClosed`. -/
def runOnEvent : RunTrigger → RunOutcome
  | RunTrigger.stopSignal => RunOutcome.gracefulShutdown shutdownGraceSeconds
  | RunTrigger.serveError ServeErr.closed => RunOutcome.cleanExit
  | RunTrigger.serveError (ServeErr.other e) => RunOutcome.failWith e

/-- Modelled from the spec: the contract of Go's `http.Server.Shutdown` under
a context deadline — the standard-library implementation is not part of this
repository. Per spec §5 it stops accepting new inbound connections, lets
in-flight requests finish within the grace period, then forces closure. -/
structure ShutdownBehavior where
  stopsNewConnections : Bool
  graceSeconds : Nat
  forcesCloseAfterGrace : Bool
deriving DecidableEq

/-- Modelled from the spec: `Shutdown` with a deadline of `graceSeconds`. -/
def shutdownSemantics (graceSeconds : Nat) : ShutdownBehavior :=
  { stopsNewConnections := true, graceSeconds := graceSeconds,
    forcesCloseAfterGrace := true }

/-- C8: a stop signal makes `Run` perform a graceful shutdown bounded by a
10-second grace period; under the modelled `Shutdown` contract this stops new
inbound connections, waits at most 10 seconds for in-flight requests, and then
forces closure. -/
theorem C8_graceful_shutdown :
    runOnEvent RunTrigger.stopSignal = RunOutcome.gracefulShutdown 10
    ∧ shutdownSemantics shutdownGraceSeconds = ShutdownBehavior.mk true 10 true :=
  ⟨rfl, rfl⟩

/-! Tunnel message protocol (`internal/protocol/protocol.go`).  The JSON text
layer is abstracted as a value tree for every field whose decoding
re-interprets the text — strings (escape sequences are decoded back), base64
byte slices, finite floats (modelled as rationals) and integers are injective
through marshal-then-unmarshal, so the tree is faithful for them.  The one
byte-verbatim field type, `json.RawMessage`, is modelled as its byte list:
`Marshal` re-encodes those bytes (compaction and HTML escaping, `compactEscape`
below) and `Unmarshal` stores the resulting element bytes verbatim.  Go's
nil/empty distinction for slices, maps and `json.RawMessage` is kept
throughout: `none` is nil, `some []` is empty-but-non-nil. -/

/-- Abstract JSON values.  `junat` is a number decoded into a `uint64` field,
`jint` into a signed integer field, `jnum` into a `float64` field, `jbytes`
the base64 string of a byte slice, `jraw` the exact text bytes of an element
written from (and read back into) a `json.RawMessage` field. -/
inductive Json where
  | jnull : Json
  | jbool : Bool → Json
  | jint : Int → Json
  | junat : Nat → Json
  | jnum : Rat → Json
  | jstr : List Char → Json
  | jbytes : List Nat → Json
  | jraw : List Nat → Json
  | jarr : List Json → Json
  | jobj : List (List Char × Json) → Json

def lookupField : List (List Char × Json) → List Char → Option Json
  | [], _ => none
  | (k, v) :: rest, name => if k = name then some v else lookupField rest name

/-- Decode a string field: missing means the zero value `""`
(`encoding/json` leaves absent fields at their zero value). -/
def getStr (fs : List (List Char × Json)) (name : List Char) : Option (List Char) :=
  match lookupField fs name with
  | none => some []
  | some (Json.jstr s) => some s
  | some _ => none

def getInt (fs : List (List Char × Json)) (name : List Char) : Option Int :=
  match lookupField fs name with
  | none => some 0
  | some (Json.jint n) => some n
  | some _ => none

def getNat (fs : List (List Char × Json)) (name : List Char) : Option Nat :=
  match lookupField fs name with
  | none => some 0
  | some (Json.junat n) => some n
  | some _ => none

def getRat (fs : List (List Char × Json)) (name : List Char) : Option Rat :=
  match lookupField fs name with
  | none => some 0
  | some (Json.jnum q) => some q
  | some _ => none

def getBool (fs : List (List Char × Json)) (name : List Char) : Option Bool :=
  match lookupField fs name with
  | none => some false
  | some (Json.jbool b) => some b
  | some _ => none

/-- Decode a `[]byte` field: missing or `null` is the nil slice. -/
def getBytes (fs : List (List Char × Json)) (name : List Char) :
    Option (Option (List Nat)) :=
  match lookupField fs name with
  | none => some none
  | some Json.jnull => some none
  | some (Json.jbytes bs) => some (some bs)
  | some _ => none

/-- String-literal tracking state for a JSON text scan: given
(inside-string, just-after-backslash) and the next byte, the successor
state.  A quote toggles string context unless escaped; a backslash inside a
string escapes the next byte. -/
def strState (inStr afterBS : Bool) (c : Nat) : Bool × Bool :=
  if inStr then
    if afterBS then (true, false)
    else if c = 92 then (true, true)
    else if c = 34 then (false, false)
    else (true, false)
  else
    if c = 34 then (true, false) else (false, false)

/-- Modelled from the spec's wire-format section and the documented behavior
of Go's `encoding/json` for `json.RawMessage` values — standard-library code
not part of this repository.  `Marshal` re-encodes the raw bytes through
`compact` with HTML escaping: whitespace (space, tab, newline, carriage
return) outside string literals is dropped; `<` (60), `>` (62) and `&` (38)
become the six-byte escapes backslash-u003c, backslash-u003e,
backslash-u0026 wherever they occur; the UTF-8 byte sequences of
U+2028/U+2029 (226 128 168/169) become backslash-u2028/backslash-u2029.  Faithful for raw bytes that are
valid JSON; on invalid bytes Go's `Marshal` fails instead, so no round trip
exists there. -/
def compactEscapeAux : Bool → Bool → List Nat → List Nat
  | _, _, [] => []
  | inStr, _, 226 :: 128 :: 168 :: rest =>
    [92, 117, 50, 48, 50, 56] ++ compactEscapeAux inStr false rest
  | inStr, _, 226 :: 128 :: 169 :: rest =>
    [92, 117, 50, 48, 50, 57] ++ compactEscapeAux inStr false rest
  | inStr, afterBS, c :: rest =>
    if c = 60 then
      [92, 117, 48, 48, 51, 99] ++
        compactEscapeAux (strState inStr afterBS c).1 (strState inStr afterBS c).2 rest
    else if c = 62 then
      [92, 117, 48, 48, 51, 101] ++
        compactEscapeAux (strState inStr afterBS c).1 (strState inStr afterBS c).2 rest
    else if c = 38 then
      [92, 117, 48, 48, 50, 54] ++
        compactEscapeAux (strState inStr afterBS c).1 (strState inStr afterBS c).2 rest
    else if inStr = false ∧ (c = 32 ∨ c = 9 ∨ c = 10 ∨ c = 13) then
      compactEscapeAux false false rest
    else
      c :: compactEscapeAux (strState inStr afterBS c).1 (strState inStr afterBS c).2 rest

/-- Go `Marshal`'s re-encoding of a `json.RawMessage`'s bytes (see
`compactEscapeAux`), started outside any string literal. -/
def compactEscape (bs : List Nat) : List Nat :=
  compactEscapeAux false false bs

/-- Decode a `json.RawMessage` field: missing is nil; a present element's
text bytes are stored verbatim (the encoder below emits body elements only as
`jraw` nodes carrying those bytes). -/
def getRaw (fs : List (List Char × Json)) (name : List Char) :
    Option (Option (List Nat)) :=
  match lookupField fs name with
  | none => some none
  | some (Json.jraw bs) => some (some bs)
  | some _ => none

def decodeStrArr : List Json → Option (List (List Char))
  | [] => some []
  | Json.jstr s :: rest => (decodeStrArr rest).map (fun l => s :: l)
  | _ :: _ => none

/-- Encode a `[]string` value: nil marshals as `null`. -/
def encStrList : Option (List (List Char)) → Json
  | none => Json.jnull
  | some xs => Json.jarr (xs.map Json.jstr)

def decStrListV (j : Json) : Option (Option (List (List Char))) :=
  match j with
  | Json.jnull => some none
  | Json.jarr xs => (decodeStrArr xs).map (fun l => some l)
  | _ => none

/-- Decode a `[]string` field: missing or `null` is the nil slice. -/
def getStrList (fs : List (List Char × Json)) (name : List Char) :
    Option (Option (List (List Char))) :=
  match lookupField fs name with
  | none => some none
  | some j => decStrListV j

def encStrMap (hs : List (List Char × List Char)) : Json :=
  Json.jobj (hs.map (fun kv => (kv.1, Json.jstr kv.2)))

def decodeStrEntries : List (List Char × Json) → Option (List (List Char × List Char))
  | [] => some []
  | (k, Json.jstr v) :: rest => (decodeStrEntries rest).map (fun l => (k, v) :: l)
  | _ :: _ => none

/-- Decode a `map[string]string` field: missing or `null` is the nil map. -/
def getStrMap (fs : List (List Char × Json)) (name : List Char) :
    Option (Option (List (List Char × List Char))) :=
  match lookupField fs name with
  | none => some none
  | some Json.jnull => some none
  | some (Json.jobj entries) => (decodeStrEntries entries).map (fun l => some l)
  | some _ => none

/-- An `omitempty` string field: omitted when empty. -/
def encOmitStr (name s : List Char) : List (List Char × Json) :=
  if s = [] then [] else [(name, Json.jstr s)]

theorem decodeStrArr_map : ∀ xs : List (List Char),
    decodeStrArr (xs.map Json.jstr) = some xs := by
  intro xs
  induction xs with
  | nil => rfl
  | cons x t ih => simp [decodeStrArr, ih]

theorem decodeStrEntries_map : ∀ hs : List (List Char × List Char),
    decodeStrEntries (hs.map (fun kv => (kv.1, Json.jstr kv.2))) = some hs := by
  intro hs
  induction hs with
  | nil => rfl
  | cons kv t ih => simp [decodeStrEntries, ih]

/-- `HelloMessage` (protocol.go): all fields unconditionally encoded;
`Capabilities []string` is `none` when nil. -/
structure HelloMessage where
  type : List Char
  version : List Char
  agentID : List Char
  agentName : List Char
  token : List Char
  dockerVersion : List Char
  hostname : List Char
  capabilities : Option (List (List Char))
deriving DecidableEq

def encodeHello (m : HelloMessage) : Json :=
  Json.jobj [("type".toList, Json.jstr m.type),
             ("version".toList, Json.jstr m.version),
             ("agentId".toList, Json.jstr m.agentID),
             ("agentName".toList, Json.jstr m.agentName),
             ("token".toList, Json.jstr m.token),
             ("dockerVersion".toList, Json.jstr m.dockerVersion),
             ("hostname".toList, Json.jstr m.hostname),
             ("capabilities".toList, encStrList m.capabilities)]

def decodeHello : Json → Option HelloMessage
  | Json.jobj fs =>
    match getStr fs "type".toList, getStr fs "version".toList,
          getStr fs "agentId".toList, getStr fs "agentName".toList,
          getStr fs "token".toList, getStr fs "dockerVersion".toList,
          getStr fs "hostname".toList, getStrList fs "capabilities".toList with
    | some t, some v, some aid, some an, some tk, some dv, some hn, some caps =>
      some ⟨t, v, aid, an, tk, dv, hn, caps⟩
    | _, _, _, _, _, _, _, _ => none
  | _ => none

theorem hello_roundtrip : ∀ m : HelloMessage, decodeHello (encodeHello m) = some m := by
  intro m
  obtain ⟨t, v, aid, an, tk, dv, hn, caps⟩ := m
  cases caps with
  | none => rfl
  | some xs =>
    simp [encodeHello, decodeHello, getStr, getStrList, encStrList, decStrListV,
      lookupField, decodeStrArr_map]

/-- `WelcomeMessage` (protocol.go): `Message` is `omitempty`. -/
structure WelcomeMessage where
  type : List Char
  environmentID : Int
  message : List Char
deriving DecidableEq

def encodeWelcome (m : WelcomeMessage) : Json :=
  Json.jobj ([("type".toList, Json.jstr m.type),
              ("environmentId".toList, Json.jint m.environmentID)]
             ++ encOmitStr "message".toList m.message)

def decodeWelcome : Json → Option WelcomeMessage
  | Json.jobj fs =>
    match getStr fs "type".toList, getInt fs "environmentId".toList,
          getStr fs "message".toList with
    | some t, some eid, some msg => some ⟨t, eid, msg⟩
    | _, _, _ => none
  | _ => none

theorem welcome_roundtrip : ∀ m : WelcomeMessage,
    decodeWelcome (encodeWelcome m) = some m := by
  intro m
  obtain ⟨t, eid, msg⟩ := m
  by_cases hm : msg = []
  · subst hm; rfl
  · simp [encodeWelcome, decodeWelcome, encOmitStr, hm, getStr, getInt, lookupField]

/-- An `omitempty` `map[string]string` field: omitted when nil or empty. -/
def encOmitMap (name : List Char) (h : Option (List (List Char × List Char))) :
    List (List Char × Json) :=
  match h with
  | none => []
  | some [] => []
  | some hs => [(name, encStrMap hs)]

/-- An `omitempty` `json.RawMessage` field: omitted when nil or when empty
but non-nil (`isEmptyValue` treats any length-0 slice as empty); a present
nonempty value is embedded as the element whose text bytes are `Marshal`'s
re-encoding of the raw bytes (`compactEscape`). -/
def encOmitRaw (name : List Char) (b : Option (List Nat)) :
    List (List Char × Json) :=
  match b with
  | none => []
  | some [] => []
  | some bs => [(name, Json.jraw (compactEscape bs))]

/-- `RequestMessage` (protocol.go): `Headers` and `Body` are `omitempty`,
`Streaming` is not.  `body` is the `json.RawMessage` byte slice (`none` nil,
`some []` empty non-nil). -/
structure RequestMessage where
  type : List Char
  requestID : List Char
  method : List Char
  path : List Char
  headers : Option (List (List Char × List Char))
  body : Option (List Nat)
  streaming : Bool
deriving DecidableEq

def encodeRequest (m : RequestMessage) : Json :=
  Json.jobj ([("type".toList, Json.jstr m.type),
              ("requestId".toList, Json.jstr m.requestID),
              ("method".toList, Json.jstr m.method),
              ("path".toList, Json.jstr m.path)]
             ++ encOmitMap "headers".toList m.headers
             ++ encOmitRaw "body".toList m.body
             ++ [("streaming".toList, Json.jbool m.streaming)])

def decodeRequest : Json → Option RequestMessage
  | Json.jobj fs =>
    match getStr fs "type".toList, getStr fs "requestId".toList,
          getStr fs "method".toList, getStr fs "path".toList,
          getStrMap fs "headers".toList, getRaw fs "body".toList,
          getBool fs "streaming".toList with
    | some t, some rid, some me, some pa, some hs, some bd, some st =>
      some ⟨t, rid, me, pa, hs, bd, st⟩
    | _, _, _, _, _, _, _ => none
  | _ => none

/-- Decoding an encoded empty-but-non-nil map gives the nil map (`omitempty`
dropped the field). -/
def normHeaders : Option (List (List Char × List Char)) →
    Option (List (List Char × List Char))
  | some [] => none
  | h => h

/-- What an encode/decode cycle makes of a `json.RawMessage` body: an empty
non-nil slice is dropped by `omitempty` and decodes as nil, and present bytes
come back as `Marshal`'s re-encoding of them. -/
def normBody : Option (List Nat) → Option (List Nat)
  | none => none
  | some [] => none
  | some bs => some (compactEscape bs)

def normRequest (m : RequestMessage) : RequestMessage :=
  { m with headers := normHeaders m.headers, body := normBody m.body }

theorem request_roundtrip : ∀ m : RequestMessage,
    decodeRequest (encodeRequest m) = some (normRequest m) := by
  intro m
  obtain ⟨t, rid, me, pa, hs, bd, st⟩ := m
  cases hs with
  | none =>
    cases bd with
    | none => rfl
    | some lb => cases lb with
      | nil => rfl
      | cons b bs => rfl
  | some l =>
    cases l with
    | nil =>
      cases bd with
      | none => rfl
      | some lb => cases lb with
        | nil => rfl
        | cons b bs => rfl
    | cons kv tl =>
      have hds := decodeStrEntries_map (kv :: tl)
      rw [List.map_cons] at hds
      cases bd with
      | none =>
        simp [encodeRequest, decodeRequest, encOmitMap, encOmitRaw, encStrMap,
          getStr, getStrMap, getRaw, getBool, lookupField, hds,
          normRequest, normHeaders, normBody]
      | some lb =>
        cases lb with
        | nil =>
          simp [encodeRequest, decodeRequest, encOmitMap, encOmitRaw, encStrMap,
            getStr, getStrMap, getRaw, getBool, lookupField, hds,
            normRequest, normHeaders, normBody]
        | cons b bs =>
          simp [encodeRequest, decodeRequest, encOmitMap, encOmitRaw, encStrMap,
            getStr, getStrMap, getRaw, getBool, lookupField, hds,
            normRequest, normHeaders, normBody]

/-- `ResponseMessage` (protocol.go): `Headers` and `Body` are `omitempty`.
`body` is the `json.RawMessage` byte slice (`none` nil, `some []` empty
non-nil). -/
structure ResponseMessage where
  type : List Char
  requestID : List Char
  statusCode : Int
  headers : Option (List (List Char × List Char))
  body : Option (List Nat)
deriving DecidableEq

def encodeResponse (m : ResponseMessage) : Json :=
  Json.jobj ([("type".toList, Json.jstr m.type),
              ("requestId".toList, Json.jstr m.requestID),
              ("statusCode".toList, Json.jint m.statusCode)]
             ++ encOmitMap "headers".toList m.headers
             ++ encOmitRaw "body".toList m.body)

def decodeResponse : Json → Option ResponseMessage
  | Json.jobj fs =>
    match getStr fs "type".toList, getStr fs "requestId".toList,
          getInt fs "statusCode".toList, getStrMap fs "headers".toList,
          getRaw fs "body".toList with
    | some t, some rid, some sc, some hs, some bd => some ⟨t, rid, sc, hs, bd⟩
    | _, _, _, _, _ => none
  | _ => none

def normResponse (m : ResponseMessage) : ResponseMessage :=
  { m with headers := normHeaders m.headers, body := normBody m.body }

theorem response_roundtrip : ∀ m : ResponseMessage,
    decodeResponse (encodeResponse m) = some (normResponse m) := by
  intro m
  obtain ⟨t, rid, sc, hs, bd⟩ := m
  cases hs with
  | none =>
    cases bd with
    | none => rfl
    | some lb => cases lb with
      | nil => rfl
      | cons b bs => rfl
  | some l =>
    cases l with
    | nil =>
      cases bd with
      | none => rfl
      | some lb => cases lb with
        | nil => rfl
        | cons b bs => rfl
    | cons kv tl =>
      have hds := decodeStrEntries_map (kv :: tl)
      rw [List.map_cons] at hds
      cases bd with
      | none =>
        simp [encodeResponse, decodeResponse, encOmitMap, encOmitRaw, encStrMap,
          getStr, getStrMap, getRaw, getInt, lookupField, hds,
          normResponse, normHeaders, normBody]
      | some lb =>
        cases lb with
        | nil =>
          simp [encodeResponse, decodeResponse, encOmitMap, encOmitRaw, encStrMap,
            getStr, getStrMap, getRaw, getInt, lookupField, hds,
            normResponse, normHeaders, normBody]
        | cons b bs =>
          simp [encodeResponse, decodeResponse, encOmitMap, encOmitRaw, encStrMap,
            getStr, getStrMap, getRaw, getInt, lookupField, hds,
            normResponse, normHeaders, normBody]

/-- `StreamMessage` (protocol.go): `Data []byte` is not `omitempty` (nil
marshals as `null`), `Stream` is `omitempty`. -/
structure StreamMessage where
  type : List Char
  requestID : List Char
  data : Option (List Nat)
  stream : List Char
deriving DecidableEq

def encData : Option (List Nat) → Json
  | none => Json.jnull
  | some bs => Json.jbytes bs

def encodeStream (m : StreamMessage) : Json :=
  Json.jobj ([("type".toList, Json.jstr m.type),
              ("requestId".toList, Json.jstr m.requestID),
              ("data".toList, encData m.data)]
             ++ encOmitStr "stream".toList m.stream)

def decodeStream : Json → Option StreamMessage
  | Json.jobj fs =>
    match getStr fs "type".toList, getStr fs "requestId".toList,
          getBytes fs "data".toList, getStr fs "stream".toList with
    | some t, some rid, some da, some st => some ⟨t, rid, da, st⟩
    | _, _, _, _ => none
  | _ => none

theorem stream_roundtrip : ∀ m : StreamMessage,
    decodeStream (encodeStream m) = some m := by
  intro m
  obtain ⟨t, rid, da, st⟩ := m
  by_cases hst : st = []
  · subst hst; cases da <;> rfl
  · cases da <;>
      simp [encodeStream, decodeStream, encData, encOmitStr, hst, getStr,
        getBytes, lookupField]

/-- `StreamEndMessage` (protocol.go): `Reason` is `omitempty`. -/
structure StreamEndMessage where
  type : List Char
  requestID : List Char
  reason : List Char
deriving DecidableEq

def encodeStreamEnd (m : StreamEndMessage) : Json :=
  Json.jobj ([("type".toList, Json.jstr m.type),
              ("requestId".toList, Json.jstr m.requestID)]
             ++ encOmitStr "reason".toList m.reason)

def decodeStreamEnd : Json → Option StreamEndMessage
  | Json.jobj fs =>
    match getStr fs "type".toList, getStr fs "requestId".toList,
          getStr fs "reason".toList with
    | some t, some rid, some rs => some ⟨t, rid, rs⟩
    | _, _, _ => none
  | _ => none

theorem streamEnd_roundtrip : ∀ m : StreamEndMessage,
    decodeStreamEnd (encodeStreamEnd m) = some m := by
  intro m
  obtain ⟨t, rid, rs⟩ := m
  by_cases hr : rs = []
  · subst hr; rfl
  · simp [encodeStreamEnd, decodeStreamEnd, encOmitStr, hr, getStr, lookupField]

/-- `HostMetrics` (protocol.go): a `float64` percentage (modelled as a
rational, Go's encoder being injective on finite floats), an `int` core count,
and eight `uint64` byte counters. -/
structure HostMetrics where
  cpuUsage : Rat
  cpuCores : Int
  memoryTotal : Nat
  memoryUsed : Nat
  memoryFree : Nat
  diskTotal : Nat
  diskUsed : Nat
  diskFree : Nat
  networkRxBytes : Nat
  networkTxBytes : Nat
deriving DecidableEq

def encodeHostMetrics (h : HostMetrics) : Json :=
  Json.jobj [("cpuUsage".toList, Json.jnum h.cpuUsage),
             ("cpuCores".toList, Json.jint h.cpuCores),
             ("memoryTotal".toList, Json.junat h.memoryTotal),
             ("memoryUsed".toList, Json.junat h.memoryUsed),
             ("memoryFree".toList, Json.junat h.memoryFree),
             ("diskTotal".toList, Json.junat h.diskTotal),
             ("diskUsed".toList, Json.junat h.diskUsed),
             ("diskFree".toList, Json.junat h.diskFree),
             ("networkRxBytes".toList, Json.junat h.networkRxBytes),
             ("networkTxBytes".toList, Json.junat h.networkTxBytes)]

def zeroHostMetrics : HostMetrics := ⟨0, 0, 0, 0, 0, 0, 0, 0, 0, 0⟩

def decodeHostMetricsFields (g : List (List Char × Json)) : Option HostMetrics :=
  match getRat g "cpuUsage".toList, getInt g "cpuCores".toList,
        getNat g "memoryTotal".toList, getNat g "memoryUsed".toList,
        getNat g "memoryFree".toList, getNat g "diskTotal".toList,
        getNat g "diskUsed".toList, getNat g "diskFree".toList,
        getNat g "networkRxBytes".toList, getNat g "networkTxBytes".toList with
  | some cu, some cc, some mt, some mu, some mf, some dt, some du, some df,
      some rx, some tx => some ⟨cu, cc, mt, mu, mf, dt, du, df, rx, tx⟩
  | _, _, _, _, _, _, _, _, _, _ => none

/-- Decode a nested `HostMetrics` struct field: missing means the zero
struct. -/
def getHostMetrics (fs : List (List Char × Json)) (name : List Char) :
    Option HostMetrics :=
  match lookupField fs name with
  | none => some zeroHostMetrics
  | some (Json.jobj g) => decodeHostMetricsFields g
  | some _ => none

/-- `MetricsMessage` (protocol.go). -/
structure MetricsMessage where
  type : List Char
  timestamp : Int
  metrics : HostMetrics
deriving DecidableEq

def encodeMetrics (m : MetricsMessage) : Json :=
  Json.jobj [("type".toList, Json.jstr m.type),
             ("timestamp".toList, Json.jint m.timestamp),
             ("metrics".toList, encodeHostMetrics m.metrics)]

def decodeMetrics : Json → Option MetricsMessage
  | Json.jobj fs =>
    match getStr fs "type".toList, getInt fs "timestamp".toList,
          getHostMetrics fs "metrics".toList with
    | some t, some ts, some hm => some ⟨t, ts, hm⟩
    | _, _, _ => none
  | _ => none

theorem metrics_roundtrip : ∀ m : MetricsMessage,
    decodeMetrics (encodeMetrics m) = some m := by
  intro m
  obtain ⟨t, ts, hm⟩ := m
  obtain ⟨cu, cc, mt, mu, mf, dt, du, df, rx, tx⟩ := hm
  rfl

/-- `PingMessage` (protocol.go). -/
structure PingMessage where
  type : List Char
  timestamp : Int
deriving DecidableEq

def encodePing (m : PingMessage) : Json :=
  Json.jobj [("type".toList, Json.jstr m.type),
             ("timestamp".toList, Json.jint m.timestamp)]

def decodePing : Json → Option PingMessage
  | Json.jobj fs =>
    match getStr fs "type".toList, getInt fs "timestamp".toList with
    | some t, some ts => some ⟨t, ts⟩
    | _, _ => none
  | _ => none

theorem ping_roundtrip : ∀ m : PingMessage, decodePing (encodePing m) = some m := by
  intro m; obtain ⟨t, ts⟩ := m; rfl

/-- `PongMessage` (protocol.go). -/
structure PongMessage where
  type : List Char
  timestamp : Int
deriving DecidableEq

def encodePong (m : PongMessage) : Json :=
  Json.jobj [("type".toList, Json.jstr m.type),
             ("timestamp".toList, Json.jint m.timestamp)]

def decodePong : Json → Option PongMessage
  | Json.jobj fs =>
    match getStr fs "type".toList, getInt fs "timestamp".toList with
    | some t, some ts => some ⟨t, ts⟩
    | _, _ => none
  | _ => none

theorem pong_roundtrip : ∀ m : PongMessage, decodePong (encodePong m) = some m := by
  intro m; obtain ⟨t, ts⟩ := m; rfl

/-- `ErrorMessage` (protocol.go): `RequestID` and `Code` are `omitempty`,
`Error` is not. -/
structure ErrorMessage where
  type : List Char
  requestID : List Char
  error : List Char
  code : List Char
deriving DecidableEq

def encodeError (m : ErrorMessage) : Json :=
  Json.jobj ([("type".toList, Json.jstr m.type)]
             ++ encOmitStr "requestId".toList m.requestID
             ++ [("error".toList, Json.jstr m.error)]
             ++ encOmitStr "code".toList m.code)

def decodeError : Json → Option ErrorMessage
  | Json.jobj fs =>
    match getStr fs "type".toList, getStr fs "requestId".toList,
          getStr fs "error".toList, getStr fs "code".toList with
    | some t, some rid, some er, some co => some ⟨t, rid, er, co⟩
    | _, _, _, _ => none
  | _ => none

theorem error_roundtrip : ∀ m : ErrorMessage,
    decodeError (encodeError m) = some m := by
  intro m
  obtain ⟨t, rid, er, co⟩ := m
  by_cases hr : rid = [] <;> by_cases hc : co = [] <;>
    simp [encodeError, decodeError, encOmitStr, hr, hc, getStr, lookupField]

/-- C6 counterexample: three `RequestMessage`s that do not round-trip.  An
empty non-nil `Headers` map is dropped by `omitempty` and decodes as the nil
map; an empty non-nil `Body json.RawMessage` is dropped the same way
(`isEmptyValue` treats any length-0 slice as empty) and decodes as the nil
slice — `reflect.DeepEqual` distinguishes both from their nil forms; and a
present `Body` whose bytes are the non-compact `{ }` (123 32 125) decodes as
`Marshal`'s compacted `{}` (123 125), different bytes. -/
theorem C6_counterexample_roundtrip_not_exact :
    decodeRequest (encodeRequest (RequestMessage.mk "request".toList "r1".toList
        "GET".toList "/info".toList (some []) none false))
      ≠ some (RequestMessage.mk "request".toList "r1".toList
        "GET".toList "/info".toList (some []) none false)
    ∧ decodeRequest (encodeRequest (RequestMessage.mk "request".toList "r1".toList
        "GET".toList "/info".toList none (some []) false))
      ≠ some (RequestMessage.mk "request".toList "r1".toList
        "GET".toList "/info".toList none (some []) false)
    ∧ decodeRequest (encodeRequest (RequestMessage.mk "request".toList "r1".toList
        "GET".toList "/info".toList none (some [123, 32, 125]) false))
      ≠ some (RequestMessage.mk "request".toList "r1".toList
        "GET".toList "/info".toList none (some [123, 32, 125]) false) := by
  refine ⟨by decide, by decide, by decide⟩

/-- C6 (amended): encoding then decoding reproduces every field value exactly
for Hello, Welcome, Stream, StreamEnd, Metrics, Ping, Pong and Error.  For
Request and Response every field value is reproduced except the
`omitempty`-tagged collections: an empty non-nil `Headers` map and an empty
non-nil `Body` raw message decode as absent (nil), and a present nonempty
`Body`'s bytes come back as `Marshal`'s re-encoding of them (whitespace
outside strings dropped, `<` `>` `&` and U+2028/U+2029 escaped) — hence
byte-identical exactly when already in that form.  `normRequest` /
`normResponse` apply exactly those replacements; omitted optional fields
decode to their original zero values throughout. -/
theorem C6_roundtrip_amended :
    (∀ m : HelloMessage, decodeHello (encodeHello m) = some m)
    ∧ (∀ m : WelcomeMessage, decodeWelcome (encodeWelcome m) = some m)
    ∧ (∀ m : RequestMessage, decodeRequest (encodeRequest m) = some (normRequest m))
    ∧ (∀ m : ResponseMessage, decodeResponse (encodeResponse m) = some (normResponse m))
    ∧ (∀ m : StreamMessage, decodeStream (encodeStream m) = some m)
    ∧ (∀ m : StreamEndMessage, decodeStreamEnd (encodeStreamEnd m) = some m)
    ∧ (∀ m : MetricsMessage, decodeMetrics (encodeMetrics m) = some m)
    ∧ (∀ m : PingMessage, decodePing (encodePing m) = some m)
    ∧ (∀ m : PongMessage, decodePong (encodePong m) = some m)
    ∧ (∀ m : ErrorMessage, decodeError (encodeError m) = some m) :=
  ⟨hello_roundtrip, welcome_roundtrip, request_roundtrip, response_roundtrip,
   stream_roundtrip, streamEnd_roundtrip, metrics_roundtrip, ping_roundtrip,
   pong_roundtrip, error_roundtrip⟩

end Hawser
